import Mathlib

/-!
# Verification of the obfuscated-TCP transport core
  (`Telegram/SourceFiles/mtproto/connection_tcp.cpp`)

A shallow embedding of the transport core: the variable-length framing
codec (`tcpPacketSize`, `handleResponse`, `tcpSend`), the receive
assembler (`socketRead`), the obfuscation handshake
(`writeConnectionStart`) and the connection state machine
(`TCPConnection` slots).  Bytes are modelled as `Nat` values `< 256`,
buffers as `List Nat`, 32-bit words of `mtpBuffer` as `Int`
(two's-complement `int32` read back from bytes where it matters).
External collaborators (the socket, `openssl` AES-CTR and SHA-256, and
the opaque fake-PQ probe codec) are parameters of the model.
-/

namespace ConnectionTcp

/-- Byte at index `i` of a buffer, `0` when out of range (the C++ code
only reads indices it has checked are present). -/
def byteAt (l : List Nat) (i : Nat) : Nat := l.getD i 0

/-- Value of a byte reinterpreted as a signed `char` (the platform
`char` is signed here; `packet[0]` comparisons in the source are signed
comparisons). -/
def toSigned8 (b : Nat) : Int := if b < 128 then (b : Int) else (b : Int) - 256

/-- 24-bit little-endian value of bytes 1..3 of a long-form header, as
computed by `(((uint32(bytes[3]) << 8) | uint32(bytes[2])) << 8) | uint32(bytes[1])`. -/
def le24 (b1 b2 b3 : Nat) : Nat := b1 + b2 * 256 + b3 * 65536

/-- 32-bit little-endian word made of bytes `i .. i+3` of a buffer. -/
def word32At (l : List Nat) (i : Nat) : Nat :=
  byteAt l i + byteAt l (i + 1) * 256 + byteAt l (i + 2) * 65536 + byteAt l (i + 3) * 16777216

/-- Modelled from the spec: `MTPPacketSizeMax`, the configured ceiling
`MAX_PACKET_SIZE` on a single frame's total byte length.  The constant
is declared in a header that is not part of this repository snapshot;
the spec only requires it to bound every frame. -/
def MTPPacketSizeMax : Nat := 0x01000000

/-- `tcpPacketSize` (connection_tcp.cpp:22): total byte length of the
frame starting at the given bytes (at least 4 bytes readable).  The
first byte is read through a signed `char`, so `result = (packet[0] > 0)
? packet[0] : 0`; `0x7f` selects the 4-byte long form with a 24-bit
little-endian word count. -/
def tcpPacketSize (packet : List Nat) : Nat :=
  let result : Nat := if 0 < toSigned8 (byteAt packet 0) then byteAt packet 0 else 0
  if result = 0x7f then
    (le24 (byteAt packet 1) (byteAt packet 2) (byteAt packet 3)) * 4 + 4
  else
    result * 4 + 1

/-- Header encoding as performed by `tcpSend` (connection_tcp.cpp:338):
a single byte for a word count `< 0x7f`, otherwise the marker byte
`0x7f` followed by the 24-bit little-endian word count. -/
def encodeHeader (wc : Nat) : List Nat :=
  if wc < 0x7f then [wc]
  else [0x7f, wc % 256, (wc / 256) % 256, (wc / 65536) % 256]

/-- Header decoding, the `(declared_word_count, header_length)` view of
`tcpPacketSize`: the same signed-`char` read of the first byte, the same
long-form dispatch on `0x7f`. -/
def decodeHeader (packet : List Nat) : Nat × Nat :=
  let result : Nat := if 0 < toSigned8 (byteAt packet 0) then byteAt packet 0 else 0
  if result = 0x7f then
    (le24 (byteAt packet 1) (byteAt packet 2) (byteAt packet 3), 4)
  else
    (result, 1)

/-- Header length chosen by the encoder for a given word count. -/
def headerLengthOf (wc : Nat) : Nat := if wc < 0x7f then 1 else 4

/-- Value of a 32-bit little-endian word reinterpreted as a signed
`int32` (`mtpPrime`). -/
def toSigned32 (v : Nat) : Int :=
  if v < 2147483648 then (v : Int) else (v : Int) - 4294967296

/-- Read `n` consecutive little-endian `int32` words from a byte
buffer. -/
def readWords (bs : List Nat) : Nat → List Int
  | 0 => []
  | n + 1 => toSigned32 (word32At bs 0) :: readWords (bs.drop 4) n

/-- Result of `handleResponse`, one constructor per `return` of the
source: `malformed` for `mtpBuffer(1, -500)`, `errorPacket` for the
1-word error frame `mtpBuffer(1, *packetdata)`, `data` for the decoded
payload. -/
inductive HandleResult
  | malformed
  | errorPacket (code : Int)
  | data (words : List Int)
deriving DecidableEq

/-- Wire value actually returned by `handleResponse` (an `mtpBuffer` of
`int32` words): the malformed marker is the 1-word buffer `[-500]`. -/
def HandleResult.toBuffer : HandleResult → List Int
  | .malformed => [-500]
  | .errorPacket c => [c]
  | .data ws => ws

/-- `AbstractTCPConnection::handleResponse` (connection_tcp.cpp:132):
validates the total length against `[5, MTPPacketSizeMax]`, reads the
declared word count (`int32 size = packet[0]` through a signed `char`,
long form on `0x7f`), rejects a header/payload length mismatch
(`size * 4 != len`), returns the 1-word error frame when `size == 1`,
otherwise the `size` payload words. -/
def handleResponse (packet : List Nat) : HandleResult :=
  if packet.length < 5 ∨ MTPPacketSizeMax < packet.length then .malformed
  else
    let size0 : Int := toSigned8 (byteAt packet 0)
    let size : Int := if size0 = 0x7f
      then ((le24 (byteAt packet 1) (byteAt packet 2) (byteAt packet 3) : Nat) : Int)
      else size0
    let len : Int := if size0 = 0x7f then (packet.length : Int) - 4 else (packet.length : Int) - 1
    if size * 4 ≠ len then .malformed
    else
      let payload := packet.drop (packet.length - len.toNat)
      if size = 1 then .errorPacket (toSigned32 (word32At payload 0))
      else .data (readWords payload size.toNat)

/-- The `(declared word count, payload byte count)` pair a frame's
header declares, as `handleResponse` computes it: the first byte read
through a signed `char`, the long form subtracting the 3 extra header
bytes from the payload length. -/
def declaredSizeLen (packet : List Nat) : Int × Int :=
  if toSigned8 (byteAt packet 0) = 0x7f
  then (((le24 (byteAt packet 1) (byteAt packet 2) (byteAt packet 3) : Nat) : Int),
        (packet.length : Int) - 4)
  else (toSigned8 (byteAt packet 0), (packet.length : Int) - 1)

/-- Connection phase of `TCPConnection` (`status` field): `WaitingTcp`
is the spec's `AwaitingConfirmation`, `UsingTcp` its `Active`,
`FinishedWork` its `Closed`. -/
inductive Status
  | WaitingTcp
  | UsingTcp
  | FinishedWork
deriving DecidableEq

/-- The subset of `QAbstractSocket` states the handlers dispatch on. -/
inductive SocketState
  | Unconnected
  | HostLookup
  | Connecting
  | Connected
  | Closing
deriving DecidableEq

/-- Signals emitted towards the caller. -/
inductive ConnEvent
  | errorSig (code : Int)
  | receivedData
  | connectedSig
  | disconnectedSig
deriving DecidableEq

/-- Requests issued to the underlying socket by the handlers. -/
inductive SockAction
  | disconnectFromHost
  | connectToHost
  | writeProbe
deriving DecidableEq

/-- `kMinReceiveTimeout` (connection_tcp.cpp:19). -/
def kMinReceiveTimeout : Int := 2000

/-- `kMaxReceiveTimeout` (connection_tcp.cpp:20). -/
def kMaxReceiveTimeout : Int := 8000

/-- Modelled from the spec: `kErrorCodeOther`, the single generic fatal
error code surfaced to the caller (declared in the abstract-connection
header, which is not part of this repository snapshot; the spec only
requires one generic code for every fatal kind). -/
def kErrorCodeOther : Int := -499

/-- Mutable connection state of `TCPConnection` relevant to the state
machine: phase, the sign-encoded backoff `_tcpTimeout`, whether the
single-shot `tcpTimeoutTimer` is armed, the probe nonce `tcpNonce`, the
received-data queue and `_pingTime`. -/
structure ConnState where
  status : Status
  tcpTimeout : Int
  timerArmed : Bool
  tcpNonce : Nat
  receivedQueue : List (List Int)
  pingTime : Int
deriving DecidableEq

/-- Constructor state (connection_tcp.cpp:200): `WaitingTcp`, backoff at
the floor, timer not yet started, a freshly drawn probe nonce. -/
def initialConn (nonce : Nat) : ConnState :=
  { status := .WaitingTcp, tcpTimeout := kMinReceiveTimeout, timerArmed := false,
    tcpNonce := nonce, receivedQueue := [], pingTime := 0 }

/-- `TCPConnection::socketPacket` (connection_tcp.cpp:390).  `parsePQ`
stands for the out-of-scope `readPQFakeReply` probe parser: `some n`
when parsing succeeds with embedded nonce `n`, `none` when it throws. -/
def socketPacket (parsePQ : List Int → Option Nat) (now : Int)
    (st : ConnState) (packet : List Nat) : ConnState × List ConnEvent :=
  if st.status = .FinishedWork then (st, [])
  else
    let data := (handleResponse packet).toBuffer
    if data.length = 1 then (st, [.errorSig data.headI])
    else if st.status = .UsingTcp then
      ({ st with receivedQueue := st.receivedQueue ++ [data] }, [.receivedData])
    else if st.status = .WaitingTcp then
      let st1 := { st with timerArmed := false }
      match parsePQ data with
      | some nonce =>
          if nonce = st1.tcpNonce then
            ({ st1 with status := .UsingTcp, pingTime := now - st1.pingTime },
             [.connectedSig])
          else (st1, [])
      | none => (st1, [.errorSig kErrorCodeOther])
    else (st, [])

/-- `TCPConnection::onSocketConnected` (connection_tcp.cpp:215): in
`WaitingTcp`, un-negate a fired backoff value, arm the timer, record the
send timestamp and send the probe. -/
def onSocketConnected (now : Int) (st : ConnState) : ConnState × List SockAction :=
  if st.status = .WaitingTcp then
    let t := if st.tcpTimeout < 0 then -st.tcpTimeout else st.tcpTimeout
    ({ st with tcpTimeout := t, timerArmed := true, pingTime := now }, [.writeProbe])
  else (st, [])

/-- `TCPConnection::onTcpTimeoutTimer` (connection_tcp.cpp:229): the
single-shot timer has fired (so it is now disarmed); in `WaitingTcp` the
backoff doubles while below `kMaxReceiveTimeout`, is negated to mark the
expiry, and a disconnect (socket still connecting/connected) or a fresh
connect (socket down, not closing) is requested. -/
def onTcpTimeoutTimer (sockState : SocketState) (st : ConnState) :
    ConnState × List SockAction :=
  let st0 := { st with timerArmed := false }
  if st0.status = .WaitingTcp then
    let t := if st0.tcpTimeout < kMaxReceiveTimeout then st0.tcpTimeout * 2
             else st0.tcpTimeout
    let st1 := { st0 with tcpTimeout := -t }
    if sockState = .Connected ∨ sockState = .Connecting ∨ sockState = .HostLookup then
      (st1, [.disconnectFromHost])
    else if sockState ≠ .Closing then
      (st1, [.connectToHost])
    else (st1, [])
  else (st0, [])

/-- `TCPConnection::onSocketDisconnected` (connection_tcp.cpp:245): a
negated (fired) backoff is un-negated and, still in `WaitingTcp`, a
reconnect is issued instead of surfacing the disconnection; otherwise
`WaitingTcp`/`UsingTcp` surface `disconnected`. -/
def onSocketDisconnected (st : ConnState) :
    ConnState × List SockAction × List ConnEvent :=
  if st.tcpTimeout < 0 then
    let st1 := { st with tcpTimeout := -st.tcpTimeout }
    if st1.status = .WaitingTcp then (st1, [.connectToHost], [])
    else if st1.status = .UsingTcp then (st1, [], [.disconnectedSig])
    else (st1, [], [])
  else if st.status = .WaitingTcp ∨ st.status = .UsingTcp then
    (st, [], [.disconnectedSig])
  else (st, [], [])

/-- Little-endian byte serialization of one `int32` word of an
`mtpBuffer` (two's complement). -/
def int32Bytes (w : Int) : List Nat :=
  let u := (w % 4294967296).toNat
  [u % 256, (u / 256) % 256, (u / 65536) % 256, (u / 16777216) % 256]

/-- Byte image of an `mtpBuffer`, as `tcpSend` views it through
`reinterpret_cast<char*>(&buffer[0])`. -/
def wordsToBytes (ws : List Int) : List Nat := (ws.map int32Bytes).flatten

/-- `AbstractTCPConnection::tcpSend` (connection_tcp.cpp:338), the bytes
handed to `sock.write` BEFORE the send keystream is applied: the size
field `size = buffer.size() - 3` is written into the buffer's byte 7
(short form) or bytes 4..7 (long form), and `len + 1` resp. `len + 4`
bytes starting there are sent. -/
def tcpSendWire (buffer : List Int) : List Nat :=
  let size := buffer.length - 3
  let len := size * 4
  let data := wordsToBytes buffer
  if size < 0x7f then
    ((data.set 7 size).drop 7).take (len + 1)
  else
    (((((data.set 4 0x7f).set 5 (size % 256)).set 6 ((size / 256) % 256)).set 7
      ((size / 65536) % 256)).drop 4).take (len + 4)

/-- Sender-side state: the phase and the per-connection `packetNum`
counter (`packetNum == 0` marks the pending one-time handshake). -/
structure SendState where
  status : Status
  packetNum : Nat
deriving DecidableEq

/-- `TCPConnection::sendData` (connection_tcp.cpp:258) together with the
framing of `tcpSend`: no-op once `FinishedWork`; a buffer of fewer than
3 words raises the generic error and writes nothing; otherwise the
packet counter is incremented and the framed bytes (pre-keystream, see
`tcpSendWire`) are written — preceded, when `packetNum == 0`, by the
one-time `writeConnectionStart` handshake write (the returned `Bool`). -/
def sendData (st : SendState) (buffer : List Int) :
    SendState × (Bool × Option (List Nat)) × List ConnEvent :=
  if st.status = .FinishedWork then (st, (false, none), [])
  else if buffer.length < 3 then
    (st, (false, none), [.errorSig kErrorCodeOther])
  else
    ({ st with packetNum := st.packetNum + 1 },
     (st.packetNum = 0, some (tcpSendWire buffer)), [])

/-- Modelled from the spec: `aesCtrEncrypt` (openssl AES-256-CTR, not
part of this repository snapshot), abstracted as the XOR of the buffer
with one continuous per-direction keystream `ks`, starting at stream
position `p`.  The counter state advances by one position per byte. -/
def applyKs (ks : Nat → Nat) : Nat → List Nat → List Nat
  | _, [] => []
  | p, b :: t => (b ^^^ ks p) :: applyKs ks (p + 1) t

/-- `slice l a b`: bytes `[a, b)` of a buffer (`subspan(a, b - a)`). -/
def slice (l : List Nat) (a b : Nat) : List Nat := (l.drop a).take (b - a)

/-- The `prepareKey` lambda of `writeConnectionStart`
(connection_tcp.cpp:296): a 16-byte `_protocolSecret` hashes
`from ‖ secret` (`sha256` stands for the out-of-scope
`openssl::Sha256`), an empty secret copies the raw source, any other
length zero-fills the 32-byte key. -/
def prepareKey (sha256 : List Nat → List Nat) (protocolSecret : List Nat)
    (src : List Nat) : List Nat :=
  if protocolSecret.length = 16 then sha256 (src ++ protocolSecret)
  else if protocolSecret = [] then src
  else List.replicate 32 0

/-- Little-endian bytes of the `int16` datacenter id. -/
def dcIdBytes (dcId : Int) : List Nat :=
  [(dcId % 65536).toNat % 256, (dcId % 65536).toNat / 256]

/-- The 64-byte nonce buffer after `writeConnectionStart` has written
the protocol marker `0xEFEFEFEF` at byte offset 56 and the little-endian
`int16` dc id at offset 60 (connection_tcp.cpp:327). -/
def markedNonce (nonce : List Nat) (dcId : Int) : List Nat :=
  nonce.take 56 ++ [0xEF, 0xEF, 0xEF, 0xEF] ++ dcIdBytes dcId ++ nonce.drop 62

/-- Everything `writeConnectionStart` produces. -/
structure HandshakeResult where
  sendKey : List Nat
  sendIvec : List Nat
  receiveKey : List Nat
  receiveIvec : List Nat
  write1 : List Nat
  write2 : List Nat

/-- `AbstractTCPConnection::writeConnectionStart` (connection_tcp.cpp:271)
after the nonce has been sampled (see `genNonce`): derive the send
key/ivec from nonce bytes `[8, 40)`/`[40, 56)`, the receive key/ivec
from the reversed middle `[8, 56)`, write the marker and dc id into the
buffer, send its first 56 bytes in cleartext, run the send keystream
(`ksOf sendKey sendIvec`, modelled from the spec as an abstract
keystream family since AES is external) over the full 64-byte buffer in
place, and send the resulting bytes `[56, 64)`. -/
def writeConnectionStart (ksOf : List Nat → List Nat → Nat → Nat)
    (sha256 : List Nat → List Nat) (protocolSecret : List Nat)
    (protocolDcId : Int) (nonce : List Nat) : HandshakeResult :=
  let sendKey := prepareKey sha256 protocolSecret (slice nonce 8 40)
  let sendIvec := slice nonce 40 56
  let reversed := (slice nonce 8 56).reverse
  let receiveKey := prepareKey sha256 protocolSecret (reversed.take 32)
  let receiveIvec := (reversed.drop 32).take 16
  let buf := markedNonce nonce protocolDcId
  let encrypted := applyKs (ksOf sendKey sendIvec) 0 buf
  { sendKey := sendKey, sendIvec := sendIvec,
    receiveKey := receiveKey, receiveIvec := receiveIvec,
    write1 := buf.take 56, write2 := (encrypted.drop 56).take 8 }

/-- The rejection condition of the nonce-sampling `do … while` loop
(connection_tcp.cpp:286): first byte `0xEF` (`reserved01`), first word
equal to one of `reserved11..reserved15`, or second word equal to
`reserved21 = 0`. -/
def nonceRejected (nonce : List Nat) : Bool :=
  byteAt nonce 0 == 0xEF
    || word32At nonce 0 == 0x44414548
    || word32At nonce 0 == 0x54534F50
    || word32At nonce 0 == 0x20544547
    || word32At nonce 0 == 0x20544547
    || word32At nonce 0 == 0xEEEEEEEE
    || word32At nonce 4 == 0x00000000

/-- The five reserved first-word constants `reserved11 .. reserved15`
("HEAD", "POST", "GET " twice, `0xEEEEEEEE`). -/
def fiveReservedWords : List Nat :=
  [0x44414548, 0x54534F50, 0x20544547, 0x20544547, 0xEEEEEEEE]

/-- The rejection-sampling loop: `candidates` enumerates the successive
outputs of `bytes::set_random`, and the loop returns the first candidate
the filter accepts (`none` only when `fuel` samples were all rejected —
the real loop is unbounded). -/
def genNonce (candidates : Nat → List Nat) : Nat → Nat → Option (List Nat)
  | _, 0 => none
  | i, fuel + 1 =>
    let c := candidates i
    if nonceRejected c then genNonce candidates (i + 1) fuel else some c

/-- Receive-assembler state of `AbstractTCPConnection`: the unconsumed
window `currentPos - packetRead .. currentPos` as a byte list (so
`packetRead = acc.length`), `packetLeft`, the inline-vs-heap buffer flag
`readingToShort`, and the receive keystream position (the running
`_receiveState` counter). -/
structure RecvState where
  acc : List Nat
  packetLeft : Nat
  readingToShort : Bool
  ctrPos : Nat
deriving DecidableEq

/-- State at connection establishment: empty window, reading to the
short buffer, keystream at position 0. -/
def initRecvState : RecvState :=
  { acc := [], packetLeft := 0, readingToShort := true, ctrPos := 0 }

/-- `toRead` of one `sock.read` (connection_tcp.cpp:54): the remainder
of the in-flight frame if one is known, else the free space of the short
buffer, else 4 bytes of header lookahead.  `cap` is the short-buffer
byte capacity `MTPShortBufferSize * sizeof(mtpPrime)` (modelled from the
spec as a parameter: the constant's header is not in this snapshot). -/
def toRead (cap : Nat) (st : RecvState) : Nat :=
  if st.packetLeft ≠ 0 then st.packetLeft
  else if st.readingToShort then cap - st.acc.length
  else 4

/-- The `while (packetRead >= 4)` frame-extraction loop of `socketRead`
(connection_tcp.cpp:89): repeatedly decode `tcpPacketSize` at the window
start, abort (`none`, the `emit error` path) on a size outside
`[5, MTPPacketSizeMax]`, deliver and advance past every fully present
frame, and stop recording `packetLeft` on a partial one.  Returns
`(delivered frames, leftover window, packetLeft)`; `fuel` only bounds
the recursion (any `fuel > buf.length` is exact). -/
def extractFrames : Nat → List Nat → Option (List (List Nat) × List Nat × Nat)
  | 0, _ => none
  | fuel + 1, buf =>
    if buf.length < 4 then some ([], buf, 0)
    else
      if tcpPacketSize buf < 5 ∨ MTPPacketSizeMax < tcpPacketSize buf then none
      else if tcpPacketSize buf ≤ buf.length then
        match extractFrames fuel (buf.drop (tcpPacketSize buf)) with
        | none => none
        | some (frames, leftover, pl) =>
          some (buf.take (tcpPacketSize buf) :: frames, leftover, pl)
      else some ([], buf, tcpPacketSize buf - buf.length)

/-- The post-loop buffer bookkeeping of `socketRead`
(connection_tcp.cpp:108): when at least one frame was consumed
(`move`), a drained window resets to the short buffer, and a small
leftover in the heap buffer is copied back to the short buffer. -/
def afterExtract (cap : Nat) (st : RecvState) (frames : List (List Nat))
    (leftover : List Nat) (pl : Nat) : RecvState :=
  if frames ≠ [] then
    if leftover = [] then
      { st with acc := [], packetLeft := pl, readingToShort := true }
    else if st.readingToShort = false ∧ leftover.length < cap then
      { st with acc := leftover, packetLeft := pl, readingToShort := true }
    else { st with acc := leftover, packetLeft := pl }
  else { st with acc := leftover, packetLeft := pl }

/-- Handling of one completed `sock.read` that returned the (already
deobfuscated) bytes `bs` (connection_tcp.cpp:69): continuing a
size-known frame decrements `packetLeft` and delivers the whole window
when it reaches zero; otherwise the new bytes join the window and the
extraction loop runs. -/
def handleRead (cap : Nat) (st : RecvState) (bs : List Nat) :
    Option (RecvState × List (List Nat)) :=
  if st.packetLeft ≠ 0 then
    let acc := st.acc ++ bs
    let pl := st.packetLeft - bs.length
    if pl = 0 then
      some ({ st with acc := [], packetLeft := 0, readingToShort := true }, [acc])
    else some ({ st with acc := acc, packetLeft := pl }, [])
  else
    let acc := st.acc ++ bs
    match extractFrames (acc.length + 1) acc with
    | none => none
    | some (frames, leftover, pl) =>
      some (afterExtract cap st frames leftover pl, frames)

/-- The `do … while (bytesAvailable)` read loop of `socketRead` over one
arrival of `chunk` ciphertext bytes: each iteration computes `toRead`,
promotes the short buffer to the heap buffer when the requested read
would overflow it (connection_tcp.cpp:56), reads
`min(toRead, available)` bytes, deobfuscates them with the receive
keystream (`aesCtrEncrypt`, connection_tcp.cpp:70) and feeds them to
`handleRead`.  A zero-byte read with data still available is unreachable
while the buffer invariants hold (`sock.read(_, 0)` would return 0 and
break); it is modelled as the stuck result `none`. -/
def processChunk (cap : Nat) (ks : Nat → Nat) :
    Nat → RecvState → List Nat → Option (RecvState × List (List Nat))
  | 0, st, chunk => if chunk = [] then some (st, []) else none
  | fuel + 1, st, chunk =>
    if chunk = [] then some (st, [])
    else
      let t := toRead cap st
      let st1 := if st.readingToShort ∧ cap < st.acc.length + t
        then { st with readingToShort := false } else st
      let k := min t chunk.length
      if k = 0 then none
      else
        let bs := applyKs ks st1.ctrPos (chunk.take k)
        match handleRead cap st1 bs with
        | none => none
        | some (st2, frames) =>
          match processChunk cap ks fuel { st2 with ctrPos := st1.ctrPos + k }
              (chunk.drop k) with
          | none => none
          | some (st3, frames2) => some (st3, frames ++ frames2)

/-- Feeding a sequence of socket arrivals (one `readyRead` → one
`socketRead` invocation per chunk) through the assembler, collecting the
delivered frames in order. -/
def runChunks (cap : Nat) (ks : Nat → Nat) :
    RecvState → List (List Nat) → Option (RecvState × List (List Nat))
  | st, [] => some (st, [])
  | st, c :: cs =>
    match processChunk cap ks c.length st c with
    | none => none
    | some (st1, fr1) =>
      match runChunks cap ks st1 cs with
      | none => none
      | some (st2, fr2) => some (st2, fr1 ++ fr2)

/-- A well-formed wire frame: its declared total length is within
`[5, MTPPacketSizeMax]` and matches its actual byte length. -/
def WFFrame (f : List Nat) : Prop :=
  5 ≤ f.length ∧ f.length ≤ MTPPacketSizeMax ∧ tcpPacketSize f = f.length

/-- Coherence of the assembler's window/`packetLeft` pair with the
not-yet-delivered frames `fs` and the plaintext bytes `rest` still to
arrive: together they form exactly `fs`; with no frame in flight the
window holds fewer than the 4 lookahead bytes; with a frame in flight
the window is a proper prefix of the head frame whose missing part is
`packetLeft`. -/
def Inv (acc : List Nat) (pl : Nat) (fs : List (List Nat)) (rest : List Nat) : Prop :=
  acc ++ rest = fs.flatten
    ∧ (pl = 0 → acc.length < 4)
    ∧ (pl ≠ 0 → ∃ f fs', fs = f :: fs' ∧ 4 ≤ acc.length ∧ acc.length + pl = f.length)

end ConnectionTcp

namespace ConnectionTcp

/-- C3: header round-trip.  For every `word_count < 0xFFFFFF`, decoding
the header produced by encoding `word_count` returns the same word count
with its header length; the header is 1 byte iff `word_count < 0x7f`;
and the total frame byte length computed by `tcpPacketSize` on the
encoded header equals `header_length + word_count * 4`. -/
theorem C3_header_roundtrip (wc : Nat) (h : wc < 0xFFFFFF) :
    decodeHeader (encodeHeader wc) = (wc, headerLengthOf wc)
      ∧ (headerLengthOf wc = 1 ↔ wc < 0x7f)
      ∧ tcpPacketSize (encodeHeader wc) = headerLengthOf wc + wc * 4 := by
  by_cases hs : wc < 0x7f
  · have henc : encodeHeader wc = [wc] := by simp [encodeHeader, hs]
    have hb : byteAt [wc] 0 = wc := rfl
    by_cases h0 : wc = 0
    · subst h0
      refine ⟨?_, ?_, ?_⟩ <;> simp [encodeHeader, decodeHeader, tcpPacketSize,
        headerLengthOf, byteAt, toSigned8]
    · have ht : toSigned8 wc = (wc : Int) := if_pos (by omega)
      have hpos : 0 < toSigned8 wc := by
        rw [ht]; exact_mod_cast Nat.pos_of_ne_zero h0
      have hne : wc ≠ 0x7f := by omega
      refine ⟨?_, ?_, ?_⟩
      · simp [henc, decodeHeader, hb, hpos, hne, headerLengthOf, hs]
      · simp [headerLengthOf, hs]
      · simp [henc, tcpPacketSize, hb, hpos, hne, headerLengthOf, hs]
        omega
  · have henc : encodeHeader wc = [0x7f, wc % 256, (wc / 256) % 256, (wc / 65536) % 256] := by
      simp [encodeHeader, hs]
    have hb : byteAt (encodeHeader wc) 0 = 0x7f := by rw [henc]; rfl
    have hpos : 0 < toSigned8 127 := by norm_num [toSigned8]
    have hrec : le24 (byteAt (encodeHeader wc) 1) (byteAt (encodeHeader wc) 2)
        (byteAt (encodeHeader wc) 3) = wc := by
      rw [henc]
      show le24 (wc % 256) ((wc / 256) % 256) ((wc / 65536) % 256) = wc
      unfold le24
      omega
    refine ⟨?_, ?_, ?_⟩
    · simp only [decodeHeader, hb]
      rw [if_pos hpos, if_pos rfl, hrec]
      simp [headerLengthOf, hs]
    · simp [headerLengthOf, hs]
    · simp only [tcpPacketSize, hb]
      rw [if_pos hpos, if_pos rfl, hrec]
      simp [headerLengthOf, hs]
      omega

/-- Witness for C3 at `word_count = 0x80` (long form) — the hypothesis
`0x80 < 0xFFFFFF` is discharged concretely. -/
theorem C3_header_roundtrip_witness :
    decodeHeader (encodeHeader 0x80) = (0x80, headerLengthOf 0x80)
      ∧ (headerLengthOf 0x80 = 1 ↔ 0x80 < 0x7f)
      ∧ tcpPacketSize (encodeHeader 0x80) = headerLengthOf 0x80 + 0x80 * 4 :=
  C3_header_roundtrip 0x80 (by decide)

theorem fst_ite {c : Prop} [Decidable c] {α β : Type} (x y : α × β) :
    (if c then x else y).1 = if c then x.1 else y.1 := by
  split <;> rfl

theorem readWords_length (bs : List Nat) (n : Nat) : (readWords bs n).length = n := by
  induction n generalizing bs with
  | zero => rfl
  | succ m ih => simp [readWords, ih]

theorem declaredSizeLen_long (packet : List Nat)
    (h : toSigned8 (byteAt packet 0) = 127) :
    declaredSizeLen packet
      = (((le24 (byteAt packet 1) (byteAt packet 2) (byteAt packet 3) : Nat) : Int),
         (packet.length : Int) - 4) := by
  unfold declaredSizeLen; rw [if_pos h]

theorem declaredSizeLen_short (packet : List Nat)
    (h : toSigned8 (byteAt packet 0) ≠ 127) :
    declaredSizeLen packet
      = (toSigned8 (byteAt packet 0), (packet.length : Int) - 1) := by
  unfold declaredSizeLen; rw [if_neg h]

theorem handleResponse_eq (packet : List Nat)
    (h1 : ¬(packet.length < 5 ∨ MTPPacketSizeMax < packet.length)) :
    handleResponse packet =
      (if (declaredSizeLen packet).1 * 4 ≠ (declaredSizeLen packet).2 then .malformed
       else if (declaredSizeLen packet).1 = 1 then
         .errorPacket (toSigned32 (word32At
           (packet.drop (packet.length - (declaredSizeLen packet).2.toNat)) 0))
       else .data (readWords
         (packet.drop (packet.length - (declaredSizeLen packet).2.toNat))
         (declaredSizeLen packet).1.toNat)) := by
  by_cases hlong : toSigned8 (byteAt packet 0) = 127
  · rw [declaredSizeLen_long packet hlong]
    unfold handleResponse
    rw [if_neg h1]
    simp only [hlong]
    simp
  · rw [declaredSizeLen_short packet hlong]
    unfold handleResponse
    rw [if_neg h1]
    simp only [if_neg hlong]

theorem declaredSizeLen_snd_pos (packet : List Nat)
    (h5 : 5 ≤ packet.length) : 1 ≤ (declaredSizeLen packet).2 := by
  by_cases hlong : toSigned8 (byteAt packet 0) = 127
  · rw [declaredSizeLen_long packet hlong]; simp; omega
  · rw [declaredSizeLen_short packet hlong]; simp; omega

/-- C4: frame decoding returns the malformed marker exactly when the
total byte length is outside `[5, MTPPacketSizeMax]` or the declared
word count does not match the payload bytes present (`size * 4 ≠ len`);
on success the declared size equals the number of payload words
returned; and a malformed frame makes `socketPacket` raise the error
signal (with the `-500` marker) to the caller without touching the
state. -/
theorem C4_malformed_frames (packet : List Nat) :
    (handleResponse packet = .malformed ↔
      (packet.length < 5 ∨ MTPPacketSizeMax < packet.length ∨
        (declaredSizeLen packet).1 * 4 ≠ (declaredSizeLen packet).2))
    ∧ (∀ ws, handleResponse packet = .data ws →
        ((ws.length : Int) = (declaredSizeLen packet).1
          ∧ (declaredSizeLen packet).1 * 4 = (declaredSizeLen packet).2))
    ∧ (∀ w, handleResponse packet = .errorPacket w →
        (declaredSizeLen packet).1 = 1 ∧ (declaredSizeLen packet).2 = 4)
    ∧ (handleResponse packet = .malformed →
        ∀ pf now st, st.status ≠ .FinishedWork →
          socketPacket pf now st packet = (st, [ConnEvent.errorSig (-500)])) := by
  by_cases h1 : packet.length < 5 ∨ MTPPacketSizeMax < packet.length
  · have hm : handleResponse packet = .malformed := by
      unfold handleResponse; rw [if_pos h1]
    refine ⟨by simp [hm]; tauto, ?_, ?_, ?_⟩
    · intro ws hws; rw [hm] at hws; cases hws
    · intro w hw; rw [hm] at hw; cases hw
    · intro _ pf now st hst
      simp [socketPacket, hm, HandleResult.toBuffer, hst]
  · have hb := handleResponse_eq packet h1
    have h5 : 5 ≤ packet.length := by omega
    have hp2 : 1 ≤ (declaredSizeLen packet).2 := declaredSizeLen_snd_pos packet h5
    by_cases hmis : (declaredSizeLen packet).1 * 4 ≠ (declaredSizeLen packet).2
    · have hm : handleResponse packet = .malformed := by rw [hb, if_pos hmis]
      refine ⟨by simp [hm]; tauto, ?_, ?_, ?_⟩
      · intro ws hws; rw [hm] at hws; cases hws
      · intro w hw; rw [hm] at hw; cases hw
      · intro _ pf now st hst
        simp [socketPacket, hm, HandleResult.toBuffer, hst]
    · push_neg at hmis
      have hpos : 1 ≤ (declaredSizeLen packet).1 := by nlinarith
      by_cases hone : (declaredSizeLen packet).1 = 1
      · have he : handleResponse packet = .errorPacket (toSigned32 (word32At
            (packet.drop (packet.length - (declaredSizeLen packet).2.toNat)) 0)) := by
          rw [hb, if_neg (by omega), if_pos hone]
        refine ⟨?_, ?_, ?_, ?_⟩
        · rw [he]; simp; omega
        · intro ws hws; rw [he] at hws; cases hws
        · intro w hw; rw [he] at hw
          exact ⟨hone, by omega⟩
        · intro hm; rw [he] at hm; cases hm
      · have hd : handleResponse packet = .data (readWords
            (packet.drop (packet.length - (declaredSizeLen packet).2.toNat))
            (declaredSizeLen packet).1.toNat) := by
          rw [hb, if_neg (by omega), if_neg hone]
        refine ⟨?_, ?_, ?_, ?_⟩
        · rw [hd]; simp; omega
        · intro ws hws; rw [hd] at hws
          injection hws with hws
          subst hws
          rw [readWords_length]
          constructor
          · omega
          · exact hmis
        · intro w hw; rw [hd] at hw; cases hw
        · intro hm; rw [hd] at hm; cases hm

/-- Witness for C4 at the well-formed 9-byte frame `[2,0,…,0]`
(2 declared words, 8 payload bytes). -/
theorem C4_malformed_frames_witness :
    handleResponse [2, 0, 0, 0, 0, 0, 0, 0, 0] = .data [0, 0]
      ∧ ¬((9 : Nat) < 5 ∨ MTPPacketSizeMax < 9
          ∨ (declaredSizeLen [2, 0, 0, 0, 0, 0, 0, 0, 0]).1 * 4
              ≠ (declaredSizeLen [2, 0, 0, 0, 0, 0, 0, 0, 0]).2) := by
  have h := (C4_malformed_frames [2, 0, 0, 0, 0, 0, 0, 0, 0]).1
  refine ⟨by decide, ?_⟩
  intro hc
  have : handleResponse [2, 0, 0, 0, 0, 0, 0, 0, 0] = .malformed := by
    refine h.mpr ?_
    simpa using hc
  exact absurd this (by decide)

/-- C10: a successfully decoded frame whose payload is exactly one word
is never enqueued as application data — in every phase the received
queue is untouched and, whenever the connection still processes frames
(`status ≠ FinishedWork`), the error signal is raised with that word as
the code; moreover any 5-byte frame (the minimal well-formed frame)
leaves the queue untouched. -/
theorem C10_one_word_frames (packet : List Nat) (pf : List Int → Option Nat)
    (now : Int) (st : ConnState) :
    (∀ w, handleResponse packet = .errorPacket w →
      (socketPacket pf now st packet).1.receivedQueue = st.receivedQueue
        ∧ (st.status ≠ .FinishedWork →
            (socketPacket pf now st packet).2 = [ConnEvent.errorSig w]))
    ∧ (packet.length = 5 →
        (socketPacket pf now st packet).1.receivedQueue = st.receivedQueue) := by
  constructor
  · intro w hw
    by_cases hst : st.status = .FinishedWork
    · simp [socketPacket, hst]
    · simp [socketPacket, hst, hw, HandleResult.toBuffer]
  · intro hlen
    have hone : (handleResponse packet).toBuffer.length = 1 := by
      have h1 : ¬(packet.length < 5 ∨ MTPPacketSizeMax < packet.length) := by
        rw [hlen]; decide
      have hb := handleResponse_eq packet h1
      by_cases hmis : (declaredSizeLen packet).1 * 4 ≠ (declaredSizeLen packet).2
      · rw [hb, if_pos hmis]; rfl
      · push_neg at hmis
        have hone' : (declaredSizeLen packet).1 = 1 := by
          by_cases hlong : toSigned8 (byteAt packet 0) = 127
          · rw [declaredSizeLen_long packet hlong] at hmis ⊢
            rw [hlen] at hmis
            simp at hmis ⊢
            omega
          · rw [declaredSizeLen_short packet hlong] at hmis ⊢
            rw [hlen] at hmis
            simp at hmis ⊢
            omega
        rw [hb, if_neg (by omega), if_pos hone']; rfl
    by_cases hst : st.status = .FinishedWork
    · simp [socketPacket, hst]
    · simp [socketPacket, hst, hone]

/-- Witness for C10 at the 5-byte error frame `[1, 148, 1, 0, 0]`
(payload word `404`), in `WaitingTcp`. -/
theorem C10_one_word_frames_witness :
    (socketPacket (fun _ => none) 0 (initialConn 5) [1, 148, 1, 0, 0]).1.receivedQueue
        = (initialConn 5).receivedQueue
      ∧ (socketPacket (fun _ => none) 0 (initialConn 5) [1, 148, 1, 0, 0]).2
        = [ConnEvent.errorSig 404] := by
  have h := (C10_one_word_frames [1, 148, 1, 0, 0] (fun _ => none) 0 (initialConn 5)).1
    404 (by decide)
  exact ⟨h.1, h.2 (by decide)⟩

/-- The state and packet used by the C1 theorems: `AwaitingConfirmation`
with the retry timer armed, receiving the well-formed 2-word frame
`[2,0,…,0]`. -/
def C1state : ConnState :=
  { status := .WaitingTcp, tcpTimeout := 2000, timerArmed := true,
    tcpNonce := 5, receivedQueue := [], pingTime := 0 }

def C1packet : List Nat := [2, 0, 0, 0, 0, 0, 0, 0, 0]

/-- C1 counterexample: in `WaitingTcp`, a probe-response frame whose
parse fails (`readPQFakeReply` throws) makes `socketPacket` emit the
generic error signal to the caller — not a silent non-fatal event — and
the retry timer has been stopped, contradicting the claim that no error
event is raised and the timer remains able to fire. -/
theorem C1_counterexample :
    (socketPacket (fun _ => none) 0 C1state C1packet).2
        = [ConnEvent.errorSig kErrorCodeOther]
      ∧ (socketPacket (fun _ => none) 0 C1state C1packet).1.timerArmed = false := by
  decide

/-- C1 (amended): for a frame received in `WaitingTcp` that is not a
1-word frame, the retry timer is stopped on receipt; then a nonce
MISMATCH is silently ignored (no event at all, no disconnect, state
otherwise unchanged, handshake still pending in `WaitingTcp`), while a
PARSE FAILURE raises the generic error signal to the caller (still
without a forced disconnect or state change). -/
theorem C1_waiting_frame_handling (pf : List Int → Option Nat) (now : Int)
    (st : ConnState) (packet : List Nat)
    (hst : st.status = .WaitingTcp)
    (hlen : (handleResponse packet).toBuffer.length ≠ 1) :
    (∀ n, pf (handleResponse packet).toBuffer = some n → n ≠ st.tcpNonce →
      socketPacket pf now st packet = ({ st with timerArmed := false }, []))
    ∧ (pf (handleResponse packet).toBuffer = none →
      socketPacket pf now st packet =
        ({ st with timerArmed := false }, [ConnEvent.errorSig kErrorCodeOther])) := by
  constructor
  · intro n hn hne
    simp [socketPacket, hst, hlen, hn, hne]
  · intro hn
    simp [socketPacket, hst, hlen, hn]

/-- Witness for C1's amended theorem: the mismatch case at a concrete
state (parser returns nonce `7`, the stored nonce is `5`). -/
theorem C1_waiting_frame_handling_witness :
    socketPacket (fun _ => some 7) 0 C1state C1packet
      = ({ C1state with timerArmed := false }, []) := by
  have h := C1_waiting_frame_handling (fun _ => some 7) 0 C1state C1packet
    (by decide) (by decide)
  exact h.1 7 rfl (by decide)

/-- The probe parser and packet driving the C9 counterexample trace. -/
def C9packet : List Nat := [2, 0, 0, 0, 0, 0, 0, 0, 0]

/-- End state of the C9 trace: connect, timer expiry (backoff 2000 →
−4000), auto-reconnect after the disconnect, connect again, then a
matching probe response. -/
def C9trace : ConnState :=
  let s0 := initialConn 5
  let s1 := (onSocketConnected 100 s0).1
  let s2 := (onTcpTimeoutTimer .Connected s1).1
  let s3 := (onSocketDisconnected s2).1
  let s4 := (onSocketConnected 200 s3).1
  (socketPacket (fun _ => some 5) 300 s4 C9packet).1

/-- C9 counterexample: after one expiry the backoff magnitude is 4000;
the successful transition to `UsingTcp` (Active) keeps `_tcpTimeout` at
4000 — it is NOT reset to the floor `kMinReceiveTimeout = 2000`;
no assignment in the success path resets it. -/
theorem C9_counterexample :
    C9trace.status = .UsingTcp ∧ C9trace.tcpTimeout = 4000
      ∧ kMinReceiveTimeout = 2000 ∧ C9trace.tcpTimeout ≠ kMinReceiveTimeout := by
  decide

/-- C9 (amended): the backoff is sign-encoded — an expiry in
`WaitingTcp` negates it after doubling its magnitude up to the ceiling
(2000 → 4000 → 8000, capped at `kMaxReceiveTimeout`); on a successful
probe response the timer is stopped but `_tcpTimeout` keeps its current
value (no reset to the floor). -/
theorem C9_backoff (sockSt : SocketState) (st : ConnState)
    (hw : st.status = .WaitingTcp)
    (hval : st.tcpTimeout = 2000 ∨ st.tcpTimeout = 4000 ∨ st.tcpTimeout = 8000) :
    ((onTcpTimeoutTimer sockSt st).1.tcpTimeout
        = -(min (2 * st.tcpTimeout) kMaxReceiveTimeout)
      ∧ (onTcpTimeoutTimer sockSt st).1.tcpTimeout < 0)
    ∧ (∀ pf now packet n, (handleResponse packet).toBuffer.length ≠ 1 →
        pf (handleResponse packet).toBuffer = some n → n = st.tcpNonce →
        (socketPacket pf now st packet).1.status = .UsingTcp
          ∧ (socketPacket pf now st packet).1.tcpTimeout = st.tcpTimeout
          ∧ (socketPacket pf now st packet).1.timerArmed = false) := by
  constructor
  · have hdouble : (onTcpTimeoutTimer sockSt st).1.tcpTimeout
        = -(if st.tcpTimeout < kMaxReceiveTimeout then st.tcpTimeout * 2
            else st.tcpTimeout) := by
      unfold onTcpTimeoutTimer
      simp [hw, fst_ite, ite_self]
    rw [hdouble]
    unfold kMaxReceiveTimeout
    rcases hval with h | h | h <;> rw [h] <;> norm_num
  · intro pf now packet n hlen hn hne
    simp [socketPacket, hw, hlen, hn, hne]

/-- Witness for C9's amended theorem at a concrete expiry (socket
connected, backoff 4000 → −8000) and a concrete matching response. -/
theorem C9_backoff_witness :
    ((onTcpTimeoutTimer .Connected { C9trace with status := .WaitingTcp }).1.tcpTimeout
        = -(min (2 * 4000) kMaxReceiveTimeout))
      ∧ (socketPacket (fun _ => some 5) 0 { C9trace with status := .WaitingTcp }
          C9packet).1.status = .UsingTcp := by
  have h := C9_backoff SocketState.Connected { C9trace with status := .WaitingTcp }
    (by decide) (by decide)
  refine ⟨?_, ?_⟩
  · have := h.1.1
    simpa using this
  · exact (h.2 (fun _ => some 5) 0 C9packet 5 (by decide) (by decide) (by decide)).1

/-- The nonce driving the C8 counterexample: first byte `0x01`, first
word `1`, second word `0x44414548` ("HEAD"). -/
def C8badNonce : List Nat :=
  [1, 0, 0, 0, 0x48, 0x45, 0x41, 0x44] ++ List.replicate 56 1

/-- C8 counterexample: the sampling loop accepts a nonce whose SECOND
word equals the reserved constant `0x44414548` — the code only checks
the second word against `reserved21 = 0`, so "neither of its first two
words equals any of the five reserved constants" fails on a produced
nonce. -/
theorem C8_counterexample :
    genNonce (fun _ => C8badNonce) 0 1 = some C8badNonce
      ∧ word32At C8badNonce 4 ∈ fiveReservedWords := by
  decide

/-- C8 (amended): every nonce the rejection-sampling loop emits has
first byte ≠ `0xEF`, first 32-bit word different from all five reserved
constants `reserved11..15`, and second 32-bit word different from
`reserved21 = 0` (the second word is NOT filtered against the five
first-word constants). -/
theorem C8_accepted_nonce (candidates : Nat → List Nat) (i fuel : Nat)
    (nonce : List Nat) (h : genNonce candidates i fuel = some nonce) :
    byteAt nonce 0 ≠ 0xEF
      ∧ word32At nonce 0 ∉ fiveReservedWords
      ∧ word32At nonce 4 ≠ 0 := by
  induction fuel generalizing i with
  | zero => simp [genNonce] at h
  | succ m ih =>
    rw [genNonce] at h
    by_cases hr : nonceRejected (candidates i)
    · rw [if_pos hr] at h
      exact ih _ h
    · rw [if_neg hr] at h
      have hc : candidates i = nonce := by
        simpa using h
      subst hc
      unfold nonceRejected at hr
      simp only [Bool.or_eq_true, beq_iff_eq, not_or] at hr
      obtain ⟨⟨⟨⟨⟨⟨h0, h11⟩, h12⟩, h13⟩, h14⟩, h15⟩, h21⟩ := hr
      refine ⟨h0, ?_, h21⟩
      simp [fiveReservedWords]
      exact ⟨h11, h12, h13, h15⟩

/-- Witness for C8's amended theorem at the all-ones candidate
(accepted on the first draw). -/
theorem C8_accepted_nonce_witness :
    byteAt (List.replicate 64 1) 0 ≠ 0xEF
      ∧ word32At (List.replicate 64 1) 0 ∉ fiveReservedWords
      ∧ word32At (List.replicate 64 1) 4 ≠ 0 :=
  C8_accepted_nonce (fun _ => List.replicate 64 1) 0 1 (List.replicate 64 1)
    (by decide)

theorem wordsToBytes_cons (w : Int) (ws : List Int) :
    wordsToBytes (w :: ws) = int32Bytes w ++ wordsToBytes ws := by
  simp [wordsToBytes]

theorem wordsToBytes_take (ws : List Int) (k : Nat) :
    (wordsToBytes ws).take (k * 4) = wordsToBytes (ws.take k) := by
  induction ws generalizing k with
  | nil => simp [wordsToBytes]
  | cons w t ih =>
    cases k with
    | zero => simp [wordsToBytes]
    | succ m =>
      rw [wordsToBytes_cons]
      rw [show (m + 1) * 4 = 4 + m * 4 by ring]
      rw [List.take_add]
      rw [show (4 : Nat) = (int32Bytes w).length from rfl]
      rw [List.take_left, List.drop_left]
      rw [show (int32Bytes w).length = 4 from rfl]
      rw [ih, ← wordsToBytes_cons]
      simp

theorem set7_drop7 (x0 x1 x2 x3 y0 y1 y2 y3 c : Nat) (t : List Nat) :
    ((x0::x1::x2::x3::y0::y1::y2::y3::t).set 7 c).drop 7 = c :: t := rfl

theorem set4567_drop4 (x0 x1 x2 x3 y0 y1 y2 y3 c0 c1 c2 c3 : Nat) (t : List Nat) :
    (((((x0::x1::x2::x3::y0::y1::y2::y3::t).set 4 c0).set 5 c1).set 6 c2).set 7 c3).drop 4
      = c0 :: c1 :: c2 :: c3 :: t := rfl

theorem take_cons_add_one (c : Nat) (n : Nat) (X : List Nat) :
    (c :: X).take (n + 1) = c :: X.take n := by
  rw [Nat.add_comm, List.take_add]
  rfl

theorem take_cons4_add_four (c0 c1 c2 c3 : Nat) (n : Nat) (X : List Nat) :
    (c0::c1::c2::c3::X).take (n + 4) = c0::c1::c2::c3::X.take n := by
  rw [Nat.add_comm, List.take_add]
  rfl

theorem tcpSendWire_eq (buffer : List Int) (h3 : 3 ≤ buffer.length) :
    tcpSendWire buffer
      = encodeHeader (buffer.length - 3)
        ++ wordsToBytes ((buffer.drop 2).take (buffer.length - 3)) := by
  rcases buffer with _ | ⟨w0, _ | ⟨w1, rest⟩⟩
  · simp at h3
  · simp at h3
  · have hr : 1 ≤ rest.length := by
      have h3' := h3
      simp only [List.length_cons] at h3'
      omega
    have hsize : (w0 :: w1 :: rest).length - 3 = rest.length - 1 := by
      simp only [List.length_cons]
      omega
    obtain ⟨x0, x1, x2, x3, hx⟩ : ∃ a b c d, int32Bytes w0 = [a, b, c, d] :=
      ⟨_, _, _, _, rfl⟩
    obtain ⟨y0, y1, y2, y3, hy⟩ : ∃ a b c d, int32Bytes w1 = [a, b, c, d] :=
      ⟨_, _, _, _, rfl⟩
    have hdata : wordsToBytes (w0 :: w1 :: rest)
        = x0::x1::x2::x3::y0::y1::y2::y3::(wordsToBytes rest) := by
      rw [wordsToBytes_cons, wordsToBytes_cons, hx, hy]
      rfl
    unfold tcpSendWire
    rw [hdata, hsize]
    set s := rest.length - 1 with hs
    by_cases hshort : s < 0x7f
    · rw [if_pos hshort]
      rw [set7_drop7, take_cons_add_one, wordsToBytes_take]
      unfold encodeHeader
      rw [if_pos hshort]
      simp
    · rw [if_neg hshort]
      rw [set4567_drop4, take_cons4_add_four, wordsToBytes_take]
      unfold encodeHeader
      rw [if_neg hshort]
      simp

/-- C6 counterexample: for the 4-word buffer `[0, 0, 0, 7]` the bytes
actually framed are the header plus word 2 of the buffer (value `0`) —
not "the buffer with its first 3 reserved words excluded", which would
transmit word 3 (value `7`): the sender drops the first TWO words and
the LAST word. -/
theorem C6_counterexample :
    tcpSendWire [0, 0, 0, 7] = [1, 0, 0, 0, 0]
      ∧ tcpSendWire [0, 0, 0, 7]
          ≠ encodeHeader 1 ++ wordsToBytes ([0, 0, 0, 7].drop 3) := by
  decide

/-- C6 (amended): with the connection not yet closed, a buffer of fewer
than 3 words raises the malformed-packet error and writes nothing; for
`n ≥ 3` words the wire size field is `n - 3` and the frame
(pre-keystream) is the encoded header followed by buffer words
`[2, n-1)` — the first TWO words and the LAST word of the in-memory
buffer are excluded, not the first three. -/
theorem C6_send_framing (st : SendState) (buffer : List Int)
    (hst : st.status ≠ .FinishedWork) :
    (buffer.length < 3 →
        sendData st buffer = (st, (false, none), [ConnEvent.errorSig kErrorCodeOther]))
      ∧ (3 ≤ buffer.length →
          sendData st buffer
              = ({ st with packetNum := st.packetNum + 1 },
                 (decide (st.packetNum = 0), some (tcpSendWire buffer)), [])
            ∧ tcpSendWire buffer
              = encodeHeader (buffer.length - 3)
                ++ wordsToBytes ((buffer.drop 2).take (buffer.length - 3))) := by
  constructor
  · intro hlt
    simp [sendData, hst, hlt]
  · intro hge
    refine ⟨?_, tcpSendWire_eq buffer hge⟩
    simp [sendData, hst]
    omega

/-- Witness for C6 at the first send of the 4-word buffer `[0,0,0,7]`. -/
theorem C6_send_framing_witness :
    sendData { status := Status.WaitingTcp, packetNum := 0 } [0, 0, 0, 7]
        = ({ status := Status.WaitingTcp, packetNum := 1 },
           (true, some (tcpSendWire [0, 0, 0, 7])), [])
      ∧ tcpSendWire [0, 0, 0, 7]
        = encodeHeader 1 ++ wordsToBytes (([0, 0, 0, 7].drop 2).take 1) := by
  have h := (C6_send_framing { status := Status.WaitingTcp, packetNum := 0 }
    [0, 0, 0, 7] (by decide)).2 (by decide)
  exact ⟨h.1, h.2⟩

theorem applyKs_length (ks : Nat → Nat) (p : Nat) (l : List Nat) :
    (applyKs ks p l).length = l.length := by
  induction l generalizing p with
  | nil => rfl
  | cons b t ih => simp [applyKs, ih]

theorem markedNonce_length (nonce : List Nat) (dcId : Int)
    (hn : nonce.length = 64) : (markedNonce nonce dcId).length = 64 := by
  simp [markedNonce, dcIdBytes, hn]

theorem markedNonce_take_56 (nonce : List Nat) (dcId : Int)
    (hn : nonce.length = 64) : (markedNonce nonce dcId).take 56 = nonce.take 56 := by
  unfold markedNonce
  rw [List.take_append_of_le_length (by simp [hn, dcIdBytes]),
      List.take_append_of_le_length (by simp [hn]),
      List.take_append_of_le_length (by simp [hn]),
      List.take_take]
  simp

/-- C2: the handshake write sends exactly the first 56 bytes of the
64-byte buffer in cleartext; the 4-byte marker `0xEFEFEFEF` sits at
buffer offset 56 and the 16-bit dc id at offset 60, both written before
any encryption; the transmitted 8-byte tail equals bytes `[56, 64)` of
the send-keystream encryption of the full 64-byte buffer. -/
theorem C2_handshake_write (ksOf : List Nat → List Nat → Nat → Nat)
    (sha256 : List Nat → List Nat) (secret : List Nat) (dcId : Int)
    (nonce : List Nat) (hn : nonce.length = 64) :
    (writeConnectionStart ksOf sha256 secret dcId nonce).write1 = nonce.take 56
      ∧ (writeConnectionStart ksOf sha256 secret dcId nonce).write1.length = 56
      ∧ slice (markedNonce nonce dcId) 56 60 = [0xEF, 0xEF, 0xEF, 0xEF]
      ∧ slice (markedNonce nonce dcId) 60 62 = dcIdBytes dcId
      ∧ (writeConnectionStart ksOf sha256 secret dcId nonce).write2
          = (applyKs (ksOf (writeConnectionStart ksOf sha256 secret dcId nonce).sendKey
              (writeConnectionStart ksOf sha256 secret dcId nonce).sendIvec) 0
              (markedNonce nonce dcId)).drop 56
      ∧ (writeConnectionStart ksOf sha256 secret dcId nonce).write2.length = 8 := by
  have hbuf : (markedNonce nonce dcId).length = 64 := markedNonce_length nonce dcId hn
  have hdroplen : ((applyKs (ksOf (prepareKey sha256 secret (slice nonce 8 40))
      (slice nonce 40 56)) 0 (markedNonce nonce dcId)).drop 56).length = 8 := by
    rw [List.length_drop, applyKs_length, hbuf]
  refine ⟨?_, ?_, ?_, ?_, ?_, ?_⟩
  · exact markedNonce_take_56 nonce dcId hn
  · show ((markedNonce nonce dcId).take 56).length = 56
    rw [List.length_take, hbuf]
    decide
  · show (((markedNonce nonce dcId).drop 56).take (60 - 56)) = _
    unfold markedNonce
    rw [List.append_assoc, List.append_assoc]
    rw [List.drop_left' (by simp [hn])]
    rfl
  · show (((markedNonce nonce dcId).drop 60).take (62 - 60)) = _
    unfold markedNonce
    rw [List.append_assoc]
    rw [List.drop_left' (by simp [hn])]
    rfl
  · show ((applyKs (ksOf (prepareKey sha256 secret (slice nonce 8 40))
        (slice nonce 40 56)) 0 (markedNonce nonce dcId)).drop 56).take 8 = _
    exact List.take_of_length_le (le_of_eq hdroplen)
  · show (((applyKs (ksOf (prepareKey sha256 secret (slice nonce 8 40))
        (slice nonce 40 56)) 0 (markedNonce nonce dcId)).drop 56).take 8).length = 8
    rw [List.take_of_length_le (le_of_eq hdroplen)]
    exact hdroplen

/-- Witness for C2 at a concrete 64-byte nonce with trivial keystream
and hash stand-ins. -/
theorem C2_handshake_write_witness :
    (writeConnectionStart (fun _ _ _ => 0) (fun _ => List.replicate 32 0) [] 2
        (List.range 64)).write1 = (List.range 64).take 56
      ∧ (writeConnectionStart (fun _ _ _ => 0) (fun _ => List.replicate 32 0) [] 2
        (List.range 64)).write2.length = 8 := by
  have h := C2_handshake_write (fun _ _ _ => 0) (fun _ => List.replicate 32 0) [] 2
    (List.range 64) (by decide)
  exact ⟨h.1, h.2.2.2.2.2⟩

theorem reverse_middle_take (l : List Nat) (hl : l.length = 64) :
    ((slice l 8 56).reverse).take 32 = (l.reverse.drop 8).take 32 := by
  have hlen1 : (((slice l 8 56).reverse).take 32).length = 32 := by
    simp [slice, hl]
  have hlen2 : ((l.reverse.drop 8).take 32).length = 32 := by
    simp [hl]
  apply List.ext_getElem (by rw [hlen1, hlen2])
  intro i h1 h2
  rw [hlen1] at h1
  simp only [slice] at h2 ⊢
  simp only [List.getElem_take, List.getElem_drop, List.getElem_reverse,
    List.length_take, List.length_drop, List.length_reverse, hl]
  congr 1
  omega

/-- C7: the send key source is nonce bytes `[8, 40)` with IV `[40, 56)`;
the receive key source is bytes `[8, 40)` of the byte-reversed nonce
(equivalently: the reversed middle `[8, 56)` split into a 32-byte key
source and a 16-byte IV); a 16-byte secret hashes
`SHA-256(source ‖ secret)`, an empty secret uses the raw source, and any
other secret length yields the all-zero key. -/
theorem C7_key_derivation (ksOf : List Nat → List Nat → Nat → Nat)
    (sha256 : List Nat → List Nat) (secret : List Nat) (dcId : Int)
    (nonce : List Nat) (hn : nonce.length = 64) :
    (writeConnectionStart ksOf sha256 secret dcId nonce).sendKey
        = prepareKey sha256 secret (slice nonce 8 40)
      ∧ (writeConnectionStart ksOf sha256 secret dcId nonce).sendIvec
        = slice nonce 40 56
      ∧ (slice nonce 8 40).length = 32
      ∧ (slice nonce 40 56).length = 16
      ∧ (writeConnectionStart ksOf sha256 secret dcId nonce).receiveKey
        = prepareKey sha256 secret ((nonce.reverse.drop 8).take 32)
      ∧ (writeConnectionStart ksOf sha256 secret dcId nonce).receiveIvec
        = (((slice nonce 8 56).reverse).drop 32).take 16
      ∧ (∀ src : List Nat,
          (secret.length = 16 → prepareKey sha256 secret src = sha256 (src ++ secret))
            ∧ (secret = [] → prepareKey sha256 secret src = src)
            ∧ (secret ≠ [] → secret.length ≠ 16 →
                prepareKey sha256 secret src = List.replicate 32 0)) := by
  refine ⟨rfl, rfl, by simp [slice, hn], by simp [slice, hn], ?_, rfl, ?_⟩
  · show prepareKey sha256 secret (((slice nonce 8 56).reverse).take 32)
      = prepareKey sha256 secret ((nonce.reverse.drop 8).take 32)
    rw [reverse_middle_take nonce hn]
  · intro src
    refine ⟨?_, ?_, ?_⟩
    · intro h16
      unfold prepareKey
      rw [if_pos h16]
    · intro hnil
      unfold prepareKey
      subst hnil
      simp
    · intro hne h16
      unfold prepareKey
      rw [if_neg h16, if_neg hne]

/-- Witness for C7 at a concrete 64-byte nonce with an empty secret. -/
theorem C7_key_derivation_witness :
    (writeConnectionStart (fun _ _ _ => 0) (fun _ => List.replicate 32 0) [] 2
        (List.range 64)).sendKey
        = prepareKey (fun _ => List.replicate 32 0) [] (slice (List.range 64) 8 40)
      ∧ prepareKey (fun _ => List.replicate 32 0) [] (slice (List.range 64) 8 40)
        = slice (List.range 64) 8 40 := by
  have h := C7_key_derivation (fun _ _ _ => 0) (fun _ => List.replicate 32 0) [] 2
    (List.range 64) (by decide)
  exact ⟨h.1, (h.2.2.2.2.2.2 (slice (List.range 64) 8 40)).2.1 rfl⟩

theorem applyKs_append (ks : Nat → Nat) (p : Nat) (a b : List Nat) :
    applyKs ks p (a ++ b) = applyKs ks p a ++ applyKs ks (p + a.length) b := by
  induction a generalizing p with
  | nil => simp [applyKs]
  | cons x t ih =>
    simp only [List.cons_append, applyKs, List.length_cons, List.cons.injEq, true_and]
    show applyKs ks (p + 1) (t ++ b)
      = applyKs ks (p + 1) t ++ applyKs ks (p + (t.length + 1)) b
    rw [ih (p + 1)]
    have harith : p + 1 + t.length = p + (t.length + 1) := by omega
    rw [harith]

theorem byteAt_take (l : List Nat) (i n : Nat) (h : i < n) :
    byteAt (l.take n) i = byteAt l i := by
  unfold byteAt
  simp [List.getD_eq_getElem?_getD, List.getElem?_take, h]

theorem tcpPacketSize_take4 (a b : List Nat) (h : a.take 4 = b.take 4) :
    tcpPacketSize a = tcpPacketSize b := by
  have h0 : byteAt a 0 = byteAt b 0 := by
    rw [← byteAt_take a 0 4 (by omega), ← byteAt_take b 0 4 (by omega), h]
  have h1 : byteAt a 1 = byteAt b 1 := by
    rw [← byteAt_take a 1 4 (by omega), ← byteAt_take b 1 4 (by omega), h]
  have h2 : byteAt a 2 = byteAt b 2 := by
    rw [← byteAt_take a 2 4 (by omega), ← byteAt_take b 2 4 (by omega), h]
  have h3 : byteAt a 3 = byteAt b 3 := by
    rw [← byteAt_take a 3 4 (by omega), ← byteAt_take b 3 4 (by omega), h]
  unfold tcpPacketSize
  rw [h0, h1, h2, h3]

theorem extractFrames_spec :
    ∀ (fuel : Nat) (fs : List (List Nat)) (buf rest : List Nat),
    (∀ f ∈ fs, WFFrame f) → buf.length < fuel → buf ++ rest = fs.flatten →
    ∃ out fs' leftover pl,
      extractFrames fuel buf = some (out, leftover, pl)
      ∧ fs = out ++ fs'
      ∧ leftover ++ rest = fs'.flatten
      ∧ (pl = 0 → leftover.length < 4)
      ∧ (pl ≠ 0 → ∃ f fs'', fs' = f :: fs''
          ∧ 4 ≤ leftover.length ∧ leftover.length + pl = f.length) := by
  intro fuel
  induction fuel with
  | zero =>
    intro fs buf rest _ hlt _
    omega
  | succ n ih =>
    intro fs buf rest hwf hlt hjoin
    by_cases hsmall : buf.length < 4
    · refine ⟨[], fs, buf, 0, ?_, rfl, hjoin, fun _ => hsmall, fun hne => absurd rfl hne⟩
      simp only [extractFrames]
      rw [if_pos hsmall]
    · push_neg at hsmall
      obtain ⟨f, fs1, rfl⟩ : ∃ f fs1, fs = f :: fs1 := by
        cases fs with
        | nil =>
          exfalso
          rw [List.flatten_nil] at hjoin
          have hlen : buf.length + rest.length = 0 := by
            rw [← List.length_append, hjoin]
            rfl
          omega
        | cons f fs1 => exact ⟨f, fs1, rfl⟩
      rw [List.flatten_cons] at hjoin
      obtain ⟨hf5, hfmax, hfsize⟩ := hwf f (by simp)
      have htake : buf.take 4 = f.take 4 := by
        have h1 := congrArg (List.take 4) hjoin
        rw [List.take_append_of_le_length hsmall,
            List.take_append_of_le_length (by omega)] at h1
        exact h1
      have hsize : tcpPacketSize buf = f.length := by
        rw [tcpPacketSize_take4 buf f htake, hfsize]
      simp only [extractFrames]
      rw [if_neg (by omega : ¬ buf.length < 4), hsize]
      rw [if_neg (by push_neg; omega :
        ¬ (f.length < 5 ∨ MTPPacketSizeMax < f.length))]
      by_cases hfull : f.length ≤ buf.length
      · rw [if_pos hfull]
        have hbuftake : buf.take f.length = f := by
          have h := congrArg (List.take f.length) hjoin
          rw [List.take_append_of_le_length hfull, List.take_left] at h
          exact h
        have hbufdrop : buf.drop f.length ++ rest = fs1.flatten := by
          have h := congrArg (List.drop f.length) hjoin
          rw [List.drop_append_of_le_length hfull, List.drop_left] at h
          exact h
        have hlt' : (buf.drop f.length).length < n := by
          rw [List.length_drop]; omega
        obtain ⟨out, fs', leftover, pl, heq, hdecomp, hleft, hpl0, hplne⟩ :=
          ih fs1 (buf.drop f.length) rest (fun g hg => hwf g (by simp [hg])) hlt' hbufdrop
        refine ⟨f :: out, fs', leftover, pl, ?_, ?_, hleft, hpl0, hplne⟩
        · rw [heq, hbuftake]
        · rw [hdecomp, List.cons_append]
      · rw [if_neg hfull]
        push_neg at hfull
        refine ⟨[], f :: fs1, buf, f.length - buf.length, rfl, rfl,
          by rw [List.flatten_cons]; exact hjoin, ?_, ?_⟩
        · intro h0; omega
        · intro _; exact ⟨f, fs1, rfl, by omega, by omega⟩

theorem afterExtract_fields (cap : Nat) (st : RecvState) (out : List (List Nat))
    (leftover : List Nat) (pl : Nat) :
    (afterExtract cap st out leftover pl).acc = leftover
      ∧ (afterExtract cap st out leftover pl).packetLeft = pl
      ∧ (afterExtract cap st out leftover pl).ctrPos = st.ctrPos := by
  unfold afterExtract
  split_ifs with h1 h2 h3
  · exact ⟨h2.symm, rfl, rfl⟩
  · exact ⟨rfl, rfl, rfl⟩
  · exact ⟨rfl, rfl, rfl⟩
  · exact ⟨rfl, rfl, rfl⟩

theorem handleRead_spec (cap : Nat) (st : RecvState) (fs : List (List Nat))
    (bs rest' : List Nat) (hwf : ∀ f ∈ fs, WFFrame f)
    (hinv : Inv st.acc st.packetLeft fs (bs ++ rest'))
    (hbs : st.packetLeft ≠ 0 → bs.length ≤ st.packetLeft) :
    ∃ st2 out fs',
      handleRead cap st bs = some (st2, out)
      ∧ fs = out ++ fs'
      ∧ Inv st2.acc st2.packetLeft fs' rest'
      ∧ st2.ctrPos = st.ctrPos := by
  obtain ⟨hjoin, hpl0, hplne⟩ := hinv
  rw [← List.append_assoc] at hjoin
  by_cases hpl : st.packetLeft = 0
  · obtain ⟨out, fs', leftover, pl, heq, hdecomp, hleft, h0, hne⟩ :=
      extractFrames_spec ((st.acc ++ bs).length + 1) fs (st.acc ++ bs) rest' hwf
        (by omega) hjoin
    obtain ⟨ha, hp, hc⟩ := afterExtract_fields cap st out leftover pl
    have hrun : handleRead cap st bs = some (afterExtract cap st out leftover pl, out) := by
      simp only [handleRead]
      rw [if_neg (not_not_intro hpl), heq]
    refine ⟨afterExtract cap st out leftover pl, out, fs', hrun, hdecomp, ?_, hc⟩
    rw [Inv, ha, hp]
    exact ⟨hleft, h0, hne⟩
  · obtain ⟨f, fs1, rfl, hacc4, hsum⟩ := hplne hpl
    have hble := hbs hpl
    rw [List.flatten_cons] at hjoin
    by_cases hdone : st.packetLeft - bs.length = 0
    · have hlen : (st.acc ++ bs).length = f.length := by
        rw [List.length_append]; omega
      obtain ⟨hfeq, hrest⟩ := List.append_inj hjoin hlen
      have hrun : handleRead cap st bs
          = some ({ st with acc := [], packetLeft := 0, readingToShort := true },
                  [st.acc ++ bs]) := by
        simp only [handleRead]
        rw [if_pos hpl, if_pos hdone]
      refine ⟨_, [st.acc ++ bs], fs1, hrun, ?_, ?_, rfl⟩
      · simp [hfeq]
      · refine ⟨by simpa using hrest, fun _ => by simp, fun hne => absurd rfl hne⟩
    · have hrun : handleRead cap st bs
          = some ({ st with acc := st.acc ++ bs, packetLeft := st.packetLeft - bs.length }, []) := by
        simp only [handleRead]
        rw [if_pos hpl, if_neg hdone]
      refine ⟨_, [], f :: fs1, hrun, rfl, ⟨?_, ?_, ?_⟩, rfl⟩
      · rw [List.flatten_cons]
        exact hjoin
      · intro h0'
        exact absurd h0' hdone
      · intro _
        refine ⟨f, fs1, rfl, ?_, ?_⟩
        · show 4 ≤ (st.acc ++ bs).length
          rw [List.length_append]; omega
        · show (st.acc ++ bs).length + (st.packetLeft - bs.length) = f.length
          rw [List.length_append]; omega

theorem toRead_pos (cap : Nat) (hcap : 4 ≤ cap) (st : RecvState)
    (h0 : st.packetLeft = 0 → st.acc.length < 4) : 0 < toRead cap st := by
  unfold toRead
  by_cases hpl : st.packetLeft = 0
  · rw [if_neg (not_not_intro hpl)]
    have hlt := h0 hpl
    split
    · omega
    · omega
  · rw [if_pos hpl]
    omega

theorem processChunk_spec (cap : Nat) (ks : Nat → Nat) (hcap : 4 ≤ cap) :
    ∀ (fuel : Nat) (st : RecvState) (fs : List (List Nat)) (c rest' : List Nat),
    c.length ≤ fuel → (∀ f ∈ fs, WFFrame f) →
    Inv st.acc st.packetLeft fs (applyKs ks st.ctrPos c ++ rest') →
    ∃ st3 out fs',
      processChunk cap ks fuel st c = some (st3, out)
      ∧ fs = out ++ fs'
      ∧ st3.ctrPos = st.ctrPos + c.length
      ∧ Inv st3.acc st3.packetLeft fs' rest' := by
  intro fuel
  induction fuel with
  | zero =>
    intro st fs c rest' hc hwf hinv
    have hcn : c = [] := List.length_eq_zero.mp (by omega)
    subst hcn
    refine ⟨st, [], fs, by simp [processChunk], rfl, by simp, ?_⟩
    simpa [applyKs] using hinv
  | succ n ih =>
    intro st fs c rest' hc hwf hinv
    by_cases hcnil : c = []
    · subst hcnil
      refine ⟨st, [], fs, by simp [processChunk], rfl, by simp, ?_⟩
      simpa [applyKs] using hinv
    · have hcpos : 0 < c.length := List.length_pos.mpr hcnil
      have htpos : 0 < toRead cap st := toRead_pos cap hcap st hinv.2.1
      set k := min (toRead cap st) c.length with hk
      have hkpos : 0 < k := by rw [hk]; exact lt_min htpos hcpos
      have hkc : k ≤ c.length := by rw [hk]; exact min_le_right _ _
      have hkt : k ≤ toRead cap st := by rw [hk]; exact min_le_left _ _
      set st1 := if st.readingToShort ∧ cap < st.acc.length + toRead cap st
        then { st with readingToShort := false } else st with hst1
      have hf1 : st1.acc = st.acc ∧ st1.packetLeft = st.packetLeft
          ∧ st1.ctrPos = st.ctrPos := by
        rw [hst1]; split <;> exact ⟨rfl, rfl, rfl⟩
      have htklen : (c.take k).length = k := by
        rw [List.length_take]
        exact min_eq_left hkc
      have hsplit : applyKs ks st.ctrPos c
          = applyKs ks st.ctrPos (c.take k) ++ applyKs ks (st.ctrPos + k) (c.drop k) := by
        conv_lhs => rw [← List.take_append_drop k c]
        rw [applyKs_append, htklen]
      have hinv1 : Inv st1.acc st1.packetLeft fs
          (applyKs ks st1.ctrPos (c.take k)
            ++ (applyKs ks (st.ctrPos + k) (c.drop k) ++ rest')) := by
        rw [hf1.1, hf1.2.1, hf1.2.2]
        rw [← List.append_assoc, ← hsplit]
        exact hinv
      have hbs1 : st1.packetLeft ≠ 0
          → (applyKs ks st1.ctrPos (c.take k)).length ≤ st1.packetLeft := by
        intro hne
        rw [hf1.2.1] at hne ⊢
        have hto : toRead cap st = st.packetLeft := by
          unfold toRead; rw [if_pos hne]
        rw [applyKs_length, htklen]
        omega
      obtain ⟨st2, out1, fs2, hrun, hdec1, hinv2, hctr2⟩ :=
        handleRead_spec cap st1 fs (applyKs ks st1.ctrPos (c.take k))
          (applyKs ks (st.ctrPos + k) (c.drop k) ++ rest') hwf hinv1 hbs1
      have hwf2 : ∀ f ∈ fs2, WFFrame f := fun f hf =>
        hwf f (by rw [hdec1]; exact List.mem_append_right _ hf)
      have hinv2' : Inv ({ st2 with ctrPos := st1.ctrPos + k } : RecvState).acc
          ({ st2 with ctrPos := st1.ctrPos + k } : RecvState).packetLeft fs2
          (applyKs ks ({ st2 with ctrPos := st1.ctrPos + k } : RecvState).ctrPos
            (c.drop k) ++ rest') := by
        show Inv st2.acc st2.packetLeft fs2
          (applyKs ks (st1.ctrPos + k) (c.drop k) ++ rest')
        rw [hf1.2.2]
        exact hinv2
      obtain ⟨st3, out2, fs3, hrun2, hdec2, hctr3, hinv3⟩ :=
        ih { st2 with ctrPos := st1.ctrPos + k } fs2 (c.drop k) rest'
          (by rw [List.length_drop]; omega) hwf2 hinv2'
      have hstep : processChunk cap ks (n + 1) st c = some (st3, out1 ++ out2) := by
        simp only [processChunk]
        rw [if_neg hcnil]
        rw [← hst1, ← hk]
        rw [if_neg (by omega : ¬ k = 0)]
        rw [hrun]
        dsimp only
        rw [hrun2]
      refine ⟨st3, out1 ++ out2, fs3, hstep, ?_, ?_, hinv3⟩
      · rw [hdec1, hdec2, List.append_assoc]
      · rw [hctr3, List.length_drop]
        have h1 : ({ st2 with ctrPos := st1.ctrPos + k } : RecvState).ctrPos
            = st.ctrPos + k := by
          show st1.ctrPos + k = st.ctrPos + k
          rw [hf1.2.2]
        rw [h1]
        omega

theorem runChunks_spec (cap : Nat) (ks : Nat → Nat) (hcap : 4 ≤ cap) :
    ∀ (cs : List (List Nat)) (st : RecvState) (fs : List (List Nat)),
    (∀ f ∈ fs, WFFrame f) →
    Inv st.acc st.packetLeft fs (applyKs ks st.ctrPos cs.flatten) →
    ∃ st' out fs',
      runChunks cap ks st cs = some (st', out)
      ∧ fs = out ++ fs'
      ∧ Inv st'.acc st'.packetLeft fs' [] := by
  intro cs
  induction cs with
  | nil =>
    intro st fs hwf hinv
    exact ⟨st, [], fs, rfl, rfl, hinv⟩
  | cons c cs' ihc =>
    intro st fs hwf hinv
    have hinv' : Inv st.acc st.packetLeft fs
        (applyKs ks st.ctrPos c ++ applyKs ks (st.ctrPos + c.length) cs'.flatten) := by
      have h := hinv
      rw [List.flatten_cons, applyKs_append] at h
      exact h
    obtain ⟨st1, out1, fs1, hp, hdec1, hctr1, hinv1⟩ :=
      processChunk_spec cap ks hcap c.length st fs c
        (applyKs ks (st.ctrPos + c.length) cs'.flatten) (le_refl _) hwf hinv'
    have hwf1 : ∀ f ∈ fs1, WFFrame f := fun f hf =>
      hwf f (by rw [hdec1]; exact List.mem_append_right _ hf)
    have hinv1' : Inv st1.acc st1.packetLeft fs1 (applyKs ks st1.ctrPos cs'.flatten) := by
      rw [hctr1]
      exact hinv1
    obtain ⟨st2, out2, fs2, hr, hdec2, hinv2⟩ := ihc st1 fs1 hwf1 hinv1'
    refine ⟨st2, out1 ++ out2, fs2, ?_, ?_, hinv2⟩
    · simp only [runChunks]
      rw [hp]
      dsimp only
      rw [hr]
    · rw [hdec1, hdec2, List.append_assoc]

theorem Inv_nil (acc : List Nat) (pl : Nat) (fs : List (List Nat))
    (hwf : ∀ f ∈ fs, WFFrame f) (h : Inv acc pl fs []) :
    fs = [] ∧ acc = [] ∧ pl = 0 := by
  obtain ⟨hjoin, h0, hne⟩ := h
  rw [List.append_nil] at hjoin
  by_cases hpl : pl = 0
  · subst hpl
    cases fs with
    | nil =>
      rw [List.flatten_nil] at hjoin
      exact ⟨rfl, hjoin, rfl⟩
    | cons f fs1 =>
      exfalso
      obtain ⟨hf5, _, _⟩ := hwf f (by simp)
      have hlen := congrArg List.length hjoin
      rw [List.flatten_cons, List.length_append] at hlen
      have hsmall := h0 rfl
      omega
  · exfalso
    obtain ⟨f, fs1, rfl, h4, hsum⟩ := hne hpl
    have hlen := congrArg List.length hjoin
    rw [List.flatten_cons, List.length_append] at hlen
    omega

/-- C5: the receive assembler is invariant to read chunking — for every
sequence of well-formed frames and EVERY partition of the (obfuscated)
byte stream into successive socket arrivals, the assembler accepts the
whole stream and delivers exactly the original frames, in wire order,
ending with an empty window and no frame in flight. -/
theorem C5_chunking_invariance (cap : Nat) (hcap : 4 ≤ cap) (ks : Nat → Nat)
    (fs : List (List Nat)) (hwf : ∀ f ∈ fs, WFFrame f)
    (cs : List (List Nat)) (hstream : applyKs ks 0 cs.flatten = fs.flatten) :
    ∃ st', runChunks cap ks initRecvState cs = some (st', fs)
      ∧ st'.acc = [] ∧ st'.packetLeft = 0 := by
  have hinv : Inv initRecvState.acc initRecvState.packetLeft fs
      (applyKs ks initRecvState.ctrPos cs.flatten) := by
    refine ⟨?_, fun _ => by simp [initRecvState], fun hne => absurd rfl hne⟩
    show [] ++ applyKs ks 0 cs.flatten = fs.flatten
    rw [List.nil_append, hstream]
  obtain ⟨st', out, fs', hr, hdec, hinv'⟩ :=
    runChunks_spec cap ks hcap cs initRecvState fs hwf hinv
  have hwf' : ∀ f ∈ fs', WFFrame f := fun f hf =>
    hwf f (by rw [hdec]; exact List.mem_append_right _ hf)
  obtain ⟨hfs', hacc, hpl⟩ := Inv_nil st'.acc st'.packetLeft fs' hwf' hinv'
  subst hfs'
  rw [List.append_nil] at hdec
  subst hdec
  exact ⟨st', hr, hacc, hpl⟩

/-- Witness for C5: the 5-byte frame `[1,9,9,9,9]` fed one byte per
socket arrival (trivial keystream), reassembled and delivered whole. -/
theorem C5_chunking_invariance_witness :
    ∃ st', runChunks 4 (fun _ => 0) initRecvState [[1], [9], [9], [9], [9]]
        = some (st', [[1, 9, 9, 9, 9]])
      ∧ st'.acc = [] ∧ st'.packetLeft = 0 :=
  C5_chunking_invariance 4 (by decide) (fun _ => 0) [[1, 9, 9, 9, 9]]
    (by
      intro f hf
      simp only [List.mem_singleton] at hf
      subst hf
      exact ⟨by decide, by decide, by decide⟩)
    [[1], [9], [9], [9], [9]] (by decide)

end ConnectionTcp
